import Mathlib

/-!
# A verification development for a Lox-family tree-walking interpreter

This file gives a shallow embedding, in Lean 4, of the canonical implementation
of the interpreter (the `lex.rs` streaming `Lexer`, the `parse.rs` Pratt
expression parser and recursive-descent statement parser, and the `interpret.rs`
tree-walking evaluator with its environment stack), together with theorems about
that embedding.

Modelling conventions, used throughout:

* Rust `f64` number values are modelled as `ℚ`.  Every number the lexer
  produces comes from a decimal lexeme, whose exact decimal value we keep as a
  rational.  (IEEE-754 rounding, NaN and infinities are not modelled; no
  theorem below depends on them.)
* Rust `&str` slices of the source buffer are modelled as `String` values
  holding the sliced text (the borrow structure is a memory-layout concern with
  no observable effect).
* `HashMap<&str, Value>` frames are modelled as association lists
  (`List (String × Value)`) with unique keys, observed only through key-based
  lookup and overwrite-on-insert, exactly the operations the source uses.
* The Rust `Vec` of frames pushes and scans from the *back* (`iter().rev()`);
  we store the same stack with the innermost frame at the *head* of the list,
  so `push` is `cons`, `pop` is `tail`, and lookups scan the list front to
  back.  This is the identical structure with indices reversed.
* Rust `panic!` / `unreachable!` / `todo!` (which abort the process) are
  modelled as an explicit `panic` outcome, distinct from `Err` results.
-/

namespace Lox

/-- The `Token` from `lex.rs`: a tagged variant.  `string` holds the text strictly
between the quotes; `number` holds the numeric value together with the original
lexeme. -/
inductive Token where
  | leftParen | rightParen | leftBrace | rightBrace
  | comma | dot | minus | plus | semicolon | star
  | equalEqual | equal | bangEqual | bang
  | lessEqual | less | greaterEqual | greater | slash
  | string (s : String)
  | number (n : ℚ) (lexeme : String)
  | identifier (ident : String)
  | and | class_ | else_ | false_ | for_ | fun_ | if_ | nil | or
  | return_ | super_ | this | true_ | var | while_ | print
  deriving DecidableEq, Repr

mutual
/-- The `ExpressionTree` from `parse.rs`. -/
inductive ExpressionTree where
  | primary (p : Primary)
  | unary (u : Unary)
  | factor (f : Factor)
  | term (t : Term)
  | comparison (c : Comparison)
  | equality (e : Equality)
  | assignment (ident : String) (rhs : ExpressionTree)

/-- The `Primary` from `parse.rs`. -/
inductive Primary where
  | string (s : String)
  | number (n : ℚ)
  | true_
  | false_
  | nil
  | group (e : ExpressionTree)
  | identifier (ident : String)

/-- The `Unary` from `parse.rs`. -/
inductive Unary where
  | bang (e : ExpressionTree)
  | minus (e : ExpressionTree)

/-- The `Factor` from `parse.rs`. -/
inductive Factor where
  | slash (lhs rhs : ExpressionTree)
  | star (lhs rhs : ExpressionTree)

/-- The `Term` from `parse.rs`. -/
inductive Term where
  | minus (lhs rhs : ExpressionTree)
  | plus (lhs rhs : ExpressionTree)

/-- The `Comparison` from `parse.rs`. -/
inductive Comparison where
  | less (lhs rhs : ExpressionTree)
  | lessEqual (lhs rhs : ExpressionTree)
  | greater (lhs rhs : ExpressionTree)
  | greaterEqual (lhs rhs : ExpressionTree)

/-- The `Equality` from `parse.rs`. -/
inductive Equality where
  | equalEqual (lhs rhs : ExpressionTree)
  | bangEqual (lhs rhs : ExpressionTree)
end

/-- The `StatementTree` from `parse.rs`. -/
inductive StatementTree where
  | print (e : ExpressionTree)
  | expr (e : ExpressionTree)
  | block (stmts : List StatementTree)
  | varDeclaration (ident : String) (expr : Option ExpressionTree)

/-- The `Value` from `interpret.rs`: a runtime value.  The `Cow<str>` owned/borrowed
distinction has no observable effect and is dropped. -/
inductive Value where
  | boolean (b : Bool)
  | number (n : ℚ)
  | string (s : String)
  | nil
  deriving DecidableEq, Repr

/-- The `EvaluationError` from `interpret.rs`. -/
inductive EvaluationError where
  | expectedNumber
  | undeclaredVariable (ident : String)
  | undefinedVariable (ident : String)
  | wrongPlusOperands
  deriving DecidableEq, Repr

/-- One scope frame: the `HashMap<&'de str, Value<'de>>` of `interpret.rs`,
as an association list with unique keys. -/
abbrev Frame := List (String × Value)

/-- The `HashMap::get` on a frame. -/
def frameGet (frame : Frame) (ident : String) : Option Value :=
  (frame.find? (fun p => p.1 = ident)).map (fun p => p.2)

/-- The `HashMap::insert` on a frame: overwrite the binding if the key is present,
otherwise add it. -/
def frameInsert (ident : String) (v : Value) : Frame → Frame
  | [] => [(ident, v)]
  | (k, w) :: rest =>
      if k = ident then (ident, v) :: rest else (k, w) :: frameInsert ident v rest

/-- The `Environments` stack of `interpret.rs`: innermost frame first (the Rust
`Vec` keeps the global frame first and works from the back; see the header). -/
abbrev Environments := List Frame

/-- The `Environments::new`: a single empty global frame. -/
def Environments.new : Environments := [[]]

/-- The `Environments::push_block`. -/
def Environments.push_block (env : Environments) : Environments := [] :: env

/-- The `Environments::pop_block`: removes the innermost frame, but never the last
(global) one. -/
def Environments.pop_block (env : Environments) : Environments :=
  if env.length > 1 then env.tail else env

/-- The `Environments::get`: scan frames from the innermost to the global one,
returning the first binding found. -/
def Environments.get (env : Environments) (ident : String) : Option Value :=
  match env with
  | [] => none
  | frame :: rest =>
      match frameGet frame ident with
      | some v => some v
      | none => Environments.get rest ident

/-- The `Environments::insert`: insert into the innermost frame.  (The Rust code
`expect`s that at least one frame exists; on the empty stack we keep it empty,
a case `Interpreter::new` never produces.) -/
def Environments.insert (env : Environments) (ident : String) (v : Value) :
    Environments :=
  match env with
  | [] => []
  | frame :: rest => frameInsert ident v frame :: rest

/-- The combination `Environments::get_mut` + `mem::swap` used by assignment:
overwrite the binding in the innermost frame that contains `ident`.  If no
frame contains it, the stack is returned unchanged (the Rust code only calls
this after `get` succeeded). -/
def Environments.assign (env : Environments) (ident : String) (v : Value) :
    Environments :=
  match env with
  | [] => []
  | frame :: rest =>
      if (frameGet frame ident).isSome then frameInsert ident v frame :: rest
      else frame :: Environments.assign rest ident v

/-- The `Value::as_number` from `interpret.rs`. -/
def Value.as_number : Value → Except EvaluationError ℚ
  | .number n => .ok n
  | _ => .error .expectedNumber

/-- Sequencing of a stateful evaluation result, mirroring Rust's `?` on a
`Result` produced while `&mut self` threads the environment stack: on `Err`
the environment mutated so far is kept and the error propagates. -/
def bindE {α β : Type} (r : Environments × Except EvaluationError α)
    (k : α → Environments → Environments × Except EvaluationError β) :
    Environments × Except EvaluationError β :=
  match r with
  | (env, .ok v) => k v env
  | (env, .error e) => (env, .error e)

/-- Rust's `?` on a pure `Result` (no state change). -/
def bindX {α β : Type} (env : Environments) (r : Except EvaluationError α)
    (k : α → Environments → Environments × Except EvaluationError β) :
    Environments × Except EvaluationError β :=
  match r with
  | .ok v => k v env
  | .error e => (env, .error e)

/-- The `Interpreter::evaluate_expr` from `interpret.rs`, with the `&mut self`
environment stack made explicit: an expression evaluates to a new stack
(assignments mutate it) and a `Result<Value, EvaluationError>`. -/
def evaluate_expr : ExpressionTree → Environments →
    Environments × Except EvaluationError Value
  | .primary p, env =>
    match p with
    | .string s => (env, .ok (.string s))
    | .number n => (env, .ok (.number n))
    | .true_ => (env, .ok (.boolean true))
    | .false_ => (env, .ok (.boolean false))
    | .nil => (env, .ok .nil)
    | .group e => evaluate_expr e env
    | .identifier ident =>
      match env.get ident with
      | some v => (env, .ok v)
      | none => (env, .error (.undefinedVariable ident))
  | .unary u, env =>
    match u with
    | .bang e =>
      bindE (evaluate_expr e env) fun v env =>
        match v with
        | .boolean true => (env, .ok (.boolean false))
        | .boolean false => (env, .ok (.boolean true))
        | .number _ => (env, .ok (.boolean false))
        | .string _ => (env, .ok (.boolean false))
        | .nil => (env, .ok (.boolean true))
    | .minus e =>
      bindE (evaluate_expr e env) fun v env =>
        bindX env v.as_number fun n env => (env, .ok (.number (-n)))
  | .factor f, env =>
    match f with
    | .slash lhs rhs =>
      bindE (evaluate_expr lhs env) fun vl env =>
        bindX env vl.as_number fun nl env =>
          bindE (evaluate_expr rhs env) fun vr env =>
            bindX env vr.as_number fun nr env => (env, .ok (.number (nl / nr)))
    | .star lhs rhs =>
      bindE (evaluate_expr lhs env) fun vl env =>
        bindX env vl.as_number fun nl env =>
          bindE (evaluate_expr rhs env) fun vr env =>
            bindX env vr.as_number fun nr env => (env, .ok (.number (nl * nr)))
  | .term t, env =>
    match t with
    | .minus lhs rhs =>
      bindE (evaluate_expr lhs env) fun vl env =>
        bindX env vl.as_number fun nl env =>
          bindE (evaluate_expr rhs env) fun vr env =>
            bindX env vr.as_number fun nr env => (env, .ok (.number (nl - nr)))
    | .plus lhs rhs =>
      bindE (evaluate_expr lhs env) fun vl env =>
        bindE (evaluate_expr rhs env) fun vr env =>
          match vl, vr with
          | .number nl, .number nr => (env, .ok (.number (nl + nr)))
          | .string sl, .string sr => (env, .ok (.string (sl ++ sr)))
          | _, _ => (env, .error .wrongPlusOperands)
  | .comparison c, env =>
    match c with
    | .less lhs rhs =>
      bindE (evaluate_expr lhs env) fun vl env =>
        bindX env vl.as_number fun nl env =>
          bindE (evaluate_expr rhs env) fun vr env =>
            bindX env vr.as_number fun nr env =>
              (env, .ok (.boolean (decide (nl < nr))))
    | .lessEqual lhs rhs =>
      bindE (evaluate_expr lhs env) fun vl env =>
        bindX env vl.as_number fun nl env =>
          bindE (evaluate_expr rhs env) fun vr env =>
            bindX env vr.as_number fun nr env =>
              (env, .ok (.boolean (decide (nl ≤ nr))))
    | .greater lhs rhs =>
      bindE (evaluate_expr lhs env) fun vl env =>
        bindX env vl.as_number fun nl env =>
          bindE (evaluate_expr rhs env) fun vr env =>
            bindX env vr.as_number fun nr env =>
              (env, .ok (.boolean (decide (nl > nr))))
    | .greaterEqual lhs rhs =>
      bindE (evaluate_expr lhs env) fun vl env =>
        bindX env vl.as_number fun nl env =>
          bindE (evaluate_expr rhs env) fun vr env =>
            bindX env vr.as_number fun nr env =>
              (env, .ok (.boolean (decide (nl ≥ nr))))
  | .equality q, env =>
    match q with
    | .equalEqual lhs rhs =>
      bindE (evaluate_expr lhs env) fun vl env =>
        bindE (evaluate_expr rhs env) fun vr env =>
          match vl, vr with
          | .boolean bl, .boolean br => (env, .ok (.boolean (bl = br)))
          | .number nl, .number nr => (env, .ok (.boolean (decide (nl = nr))))
          | .string sl, .string sr => (env, .ok (.boolean (sl = sr)))
          | .nil, .nil => (env, .ok (.boolean true))
          | _, _ => (env, .ok (.boolean false))
    | .bangEqual lhs rhs =>
      bindE (evaluate_expr lhs env) fun vl env =>
        bindE (evaluate_expr rhs env) fun vr env =>
          match vl, vr with
          | .boolean bl, .boolean br => (env, .ok (.boolean (bl ≠ br)))
          | .number nl, .number nr => (env, .ok (.boolean (decide (nl ≠ nr))))
          | .string sl, .string sr => (env, .ok (.boolean (sl ≠ sr)))
          | .nil, .nil => (env, .ok (.boolean true))
          | _, _ => (env, .ok (.boolean false))
  | .assignment ident rhs, env =>
    match env.get ident with
    | some _ =>
      bindE (evaluate_expr rhs env) fun v env =>
        (env.assign ident v, .ok v)
    | none => (env, .error (.undeclaredVariable ident))

/-- The smallest number of decimal digits after the point needed to write the
rational `q` exactly, when `q` has a finite decimal expansion (searched up to
64 digits, far beyond anything an `f64` lexeme produces). -/
def decExponent (q : ℚ) : ℕ :=
  ((List.range 65).find? (fun k => decide ((q * 10 ^ k).den = 1))).getD 0

/-- Left-pad a digit string with zeros to width `k`. -/
def padZeros (s : String) (k : ℕ) : String :=
  String.mk (List.replicate (k - s.length) '0') ++ s

/-- The decimal rendering of a nonnegative rational with a finite decimal
expansion, with exactly `decExponent q` fractional digits (so no trailing
zeros); by minimality of the exponent this is the shortest exact decimal. -/
def ratFracString (q : ℚ) : String :=
  let k := decExponent q
  let m := (q * 10 ^ k).num.toNat
  toString (m / 10 ^ k) ++ "." ++ padZeros (toString (m % 10 ^ k)) k

/-- Rust's `Display` for `f64` (the `{number}` in `Value`'s `Display`): the
shortest decimal that reads back as the same number — no decimal point for
integral values.  Modelled exactly on rationals with finite decimal
expansions, the only numbers the interpreter's literals produce. -/
def displayF64 (q : ℚ) : String :=
  if q.den = 1 then toString q.num
  else if q < 0 then "-" ++ ratFracString (-q) else ratFracString q

/-- Rust's `Debug` for `f64` (the `{n:?}` in `Primary`'s `Display`): as
`displayF64` but always with at least one fractional digit (`1` prints as
`1.0`). -/
def debugF64 (q : ℚ) : String :=
  if q.den = 1 then toString q.num ++ ".0"
  else if q < 0 then "-" ++ ratFracString (-q) else ratFracString q

/-- The `Display` for `Value` from `interpret.rs`: the canonical printed form. -/
def Value.display : Value → String
  | .boolean true => "true"
  | .boolean false => "false"
  | .number n => displayF64 n
  | .string s => s
  | .nil => "nil"

/-- The `Interpreter::evaluate` from `interpret.rs`: run a statement list against
the environment stack, accumulating the lines printed to standard output.
A `Block` pushes a frame, evaluates its statements, and pops the frame — but
the `?` on the inner evaluation returns *before* `pop_block` when an inner
statement fails. -/
def evaluate : List StatementTree → Environments → List String →
    (Environments × List String) × Except EvaluationError Unit
  | [], env, out => ((env, out), .ok ())
  | stmt :: rest, env, out =>
    match stmt with
    | .print e =>
      match evaluate_expr e env with
      | (env, .ok v) => evaluate rest env (out ++ [v.display])
      | (env, .error err) => ((env, out), .error err)
    | .expr e =>
      match evaluate_expr e env with
      | (env, .ok _) => evaluate rest env out
      | (env, .error err) => ((env, out), .error err)
    | .varDeclaration ident (some e) =>
      match evaluate_expr e env with
      | (env, .ok v) => evaluate rest (env.insert ident v) out
      | (env, .error err) => ((env, out), .error err)
    | .varDeclaration ident none =>
      evaluate rest (env.insert ident .nil) out
    | .block stmts =>
      match evaluate stmts env.push_block out with
      | ((env, out), .ok ()) => evaluate rest env.pop_block out
      | ((env, out), .error err) => ((env, out), .error err)

example : evaluate_expr (.primary .nil) [] = ([], .ok .nil) := rfl

example :
    evaluate [.print (.primary .true_)] Environments.new [] =
      (([[]], ["true"]), .ok ()) := by
  simp [evaluate, evaluate_expr, Environments.new, Value.display]

/-! ## Frame-stack depth facts -/

lemma length_insert (env : Environments) (ident : String) (v : Value) :
    (env.insert ident v).length = env.length := by
  cases env <;> simp [Environments.insert]

lemma length_assign (env : Environments) (ident : String) (v : Value) :
    (env.assign ident v).length = env.length := by
  induction env with
  | nil => simp [Environments.assign]
  | cons f rest ih => simp only [Environments.assign]; split <;> simp [ih]

lemma length_push_block (env : Environments) :
    env.push_block.length = env.length + 1 := by
  simp [Environments.push_block]

lemma length_pop_block_le (env : Environments) :
    env.pop_block.length ≤ env.length := by
  simp only [Environments.pop_block]
  split
  · simp [List.length_tail]
  · exact le_rfl

lemma length_pop_block_ge (env : Environments) :
    env.length - 1 ≤ env.pop_block.length := by
  simp only [Environments.pop_block]
  split <;> simp [List.length_tail]

lemma length_pop_block_of_lt (env : Environments) (h : 1 < env.length) :
    env.pop_block.length = env.length - 1 := by
  simp [Environments.pop_block, h, List.length_tail]

lemma bindE_fst_length {α β : Type} {r : Environments × Except EvaluationError α}
    {k : α → Environments → Environments × Except EvaluationError β} {n : ℕ}
    (h1 : r.1.length = n)
    (h2 : ∀ v, r.2 = .ok v → ((k v r.1).1.length = n)) :
    (bindE r k).1.length = n := by
  rcases r with ⟨env, rr⟩
  cases rr with
  | ok v => exact h2 v rfl
  | error e => simpa [bindE] using h1

lemma bindX_fst_length {α β : Type} {env : Environments}
    {r : Except EvaluationError α}
    {k : α → Environments → Environments × Except EvaluationError β} {n : ℕ}
    (h1 : env.length = n)
    (h2 : ∀ v, r = .ok v → ((k v env).1.length = n)) :
    (bindX env r k).1.length = n := by
  cases r with
  | ok v => exact h2 v rfl
  | error e => simpa [bindX] using h1

/-- Expression evaluation never pushes or pops a frame: only `Block`
statements change the frame-stack depth. -/
lemma evaluate_expr_length (e : ExpressionTree) (env : Environments) :
    (evaluate_expr e env).1.length = env.length := by
  induction e, env using evaluate_expr.induct
  all_goals simp only [evaluate_expr]
  all_goals
    repeat' (first
      | assumption
      | rfl
      | (apply bindE_fst_length)
      | (apply bindX_fst_length)
      | (intro _ _)
      | (split)
      | (simp_all [length_assign]))

/-- Statement evaluation never shrinks the frame stack, and restores its depth
exactly whenever it completes without an error (the error path of a `Block`
returns before `pop_block`). -/
lemma evaluate_length (stmts : List StatementTree) (env : Environments)
    (out : List String) :
    env.length ≤ (evaluate stmts env out).1.1.length ∧
    (0 < env.length → (evaluate stmts env out).2 = .ok () →
      (evaluate stmts env out).1.1.length = env.length) := by
  induction stmts, env, out using evaluate.induct
  case case1 => simp [evaluate]
  case case2 rest env out e env2 v heq ih =>
    have hl := evaluate_expr_length e env
    rw [heq] at hl; simp at hl
    simp only [evaluate, heq]
    refine ⟨?_, fun h0 hok => ?_⟩
    · have := ih.1; omega
    · have := ih.2 (by omega) hok; omega
  case case3 rest env out e env2 err heq =>
    have hl := evaluate_expr_length e env
    rw [heq] at hl; simp at hl
    simp only [evaluate, heq]
    exact ⟨by omega, fun h0 hok => by simp at hok⟩
  case case4 rest env out e env2 v heq ih =>
    have hl := evaluate_expr_length e env
    rw [heq] at hl; simp at hl
    simp only [evaluate, heq]
    refine ⟨?_, fun h0 hok => ?_⟩
    · have := ih.1; omega
    · have := ih.2 (by omega) hok; omega
  case case5 rest env out e env2 err heq =>
    have hl := evaluate_expr_length e env
    rw [heq] at hl; simp at hl
    simp only [evaluate, heq]
    exact ⟨by omega, fun h0 hok => by simp at hok⟩
  case case6 rest env out ident e env2 v heq ih =>
    have hl := evaluate_expr_length e env
    rw [heq] at hl; simp at hl
    have hi := length_insert env2 ident v
    simp only [evaluate, heq]
    refine ⟨?_, fun h0 hok => ?_⟩
    · have := ih.1; omega
    · have := ih.2 (by omega) hok; omega
  case case7 rest env out ident e env2 err heq =>
    have hl := evaluate_expr_length e env
    rw [heq] at hl; simp at hl
    simp only [evaluate, heq]
    exact ⟨by omega, fun h0 hok => by simp at hok⟩
  case case8 rest env out ident ih =>
    have hi := length_insert env ident .nil
    simp only [evaluate]
    refine ⟨?_, fun h0 hok => ?_⟩
    · have := ih.1; omega
    · have := ih.2 (by omega) hok; omega
  case case9 rest env out stmts env2 out2 heq ihI ihR =>
    have hpush := length_push_block env
    have h2 : env2.length = env.length + 1 := by
      have := ihI.2 (by omega) (by rw [heq])
      rw [heq] at this
      simpa [hpush] using this
    have hpop_ge := length_pop_block_ge env2
    have hpop_le := length_pop_block_le env2
    simp only [evaluate, heq]
    refine ⟨?_, fun h0 hok => ?_⟩
    · have := ihR.1; omega
    · have hpop := length_pop_block_of_lt env2 (by omega)
      have := ihR.2 (by omega) hok
      omega
  case case10 rest env out stmts env2 out2 err heq ihI =>
    have hpush := length_push_block env
    have h1 := ihI.1
    rw [heq] at h1; simp at h1
    simp only [evaluate, heq]
    exact ⟨by omega, fun h0 hok => by simp at hok⟩

/-- C1, counterexample: the one-statement program `{ -nil; }` fails inside the
block with `ExpectedNumber`, and the environment stack it leaves behind has
depth 2, not the entry depth 1: the `?` in the `Block` arm of
`Interpreter::evaluate` returns before `pop_block`, so the frame is *not*
popped on the error exit path. -/
theorem claim_C1_counterexample :
    (evaluate [.block [.expr (.unary (.minus (.primary .nil)))]]
        Environments.new []).2 = .error .expectedNumber ∧
    (evaluate [.block [.expr (.unary (.minus (.primary .nil)))]]
        Environments.new []).1.1.length ≠ Environments.new.length := by
  constructor <;>
    simp [evaluate, evaluate_expr, bindE, bindX, Value.as_number,
      Environments.new, Environments.push_block]

/-- C1 (amended): evaluating a `Block` pushes one fresh frame and pops it on
the *normal* exit path, so on `Ok` the frame-stack depth equals the depth
before the block; but on an `EvaluationError` from an inner statement the
error propagates before `pop_block` runs, so the depth strictly exceeds the
entry depth. -/
theorem claim_C1_amended (stmts : List StatementTree) (env : Environments)
    (out : List String) (h : 0 < env.length) :
    ((evaluate [.block stmts] env out).2 = .ok () →
      (evaluate [.block stmts] env out).1.1.length = env.length) ∧
    ((evaluate [.block stmts] env out).2 ≠ .ok () →
      env.length < (evaluate [.block stmts] env out).1.1.length) := by
  have hpush := length_push_block env
  have hmain := evaluate_length stmts env.push_block out
  rcases hin : evaluate stmts env.push_block out with ⟨⟨env2, out2⟩, r⟩
  rw [hin] at hmain
  simp only at hmain
  cases r with
  | ok u =>
    cases u
    have h2 : env2.length = env.length + 1 := by
      have := hmain.2 (by omega) rfl; omega
    have hpop := length_pop_block_of_lt env2 (by omega)
    simp only [evaluate, hin]
    constructor
    · intro _; omega
    · intro hne; exact absurd rfl hne
  | error err =>
    have h2 : env.length + 1 ≤ env2.length := by have := hmain.1; omega
    simp only [evaluate, hin]
    exact ⟨fun hok => by simp at hok, fun _ => by simpa using h2⟩

/-- C1, witness for the amended theorem at the concrete program `{ -nil; }`
from the fresh interpreter state. -/
theorem claim_C1_witness :
    0 < Environments.new.length ∧
    (((evaluate [.block [.expr (.unary (.minus (.primary .nil)))]]
        Environments.new []).2 = .ok () →
      (evaluate [.block [.expr (.unary (.minus (.primary .nil)))]]
        Environments.new []).1.1.length = Environments.new.length) ∧
    ((evaluate [.block [.expr (.unary (.minus (.primary .nil)))]]
        Environments.new []).2 ≠ .ok () →
      Environments.new.length <
        (evaluate [.block [.expr (.unary (.minus (.primary .nil)))]]
          Environments.new []).1.1.length)) :=
  ⟨by decide, claim_C1_amended _ _ _ (by decide)⟩

/-- C2: in `Equality::BangEqual` the two fallback arms are copied from
`EqualEqual` instead of negated: `nil != nil` evaluates to `true` (the claim
and spec §9 say the negation of `==`, i.e. `false`), and for mismatched
variants (`1 != nil`) both `==` and `!=` evaluate to `false`, so `!=` is not
the Boolean negation of `==`.  The code contradicts the spec's stated intent
("`a != b` SHOULD be `!(a == b)`"). -/
theorem claim_C2_bang_equal_copy_paste :
    evaluate_expr (.equality (.bangEqual (.primary .nil) (.primary .nil)))
        Environments.new = (Environments.new, .ok (.boolean true)) ∧
    evaluate_expr (.equality (.equalEqual (.primary .nil) (.primary .nil)))
        Environments.new = (Environments.new, .ok (.boolean true)) ∧
    evaluate_expr (.equality (.bangEqual (.primary (.number 1)) (.primary .nil)))
        Environments.new = (Environments.new, .ok (.boolean false)) ∧
    evaluate_expr (.equality (.equalEqual (.primary (.number 1)) (.primary .nil)))
        Environments.new = (Environments.new, .ok (.boolean false)) := by
  refine ⟨?_, ?_, ?_, ?_⟩ <;> simp [evaluate_expr, bindE, Environments.new]

/-! ## Assignment and scoping facts -/

lemma frameGet_frameInsert_self (f : Frame) (ident : String) (v : Value) :
    frameGet (frameInsert ident v f) ident = some v := by
  induction f with
  | nil => simp [frameGet, frameInsert]
  | cons p rest ih =>
    rcases p with ⟨k, w⟩
    simp only [frameInsert]
    split
    · simp [frameGet]
    · rename_i hk
      simpa [frameGet, List.find?, hk] using ih

lemma frameGet_frameInsert_ne (f : Frame) (ident k : String) (v : Value)
    (h : k ≠ ident) :
    frameGet (frameInsert ident v f) k = frameGet f k := by
  induction f with
  | nil => simp [frameGet, frameInsert, Ne.symm h]
  | cons p rest ih =>
    rcases p with ⟨k2, w⟩
    simp only [frameInsert]
    split
    · rename_i hk2
      subst hk2
      simp [frameGet, List.find?, Ne.symm h]
    · by_cases hx : k2 = k
      · subst hx; simp [frameGet, List.find?]
      · simpa [frameGet, List.find?, hx] using ih

lemma get_assign_self (env : Environments) (ident : String) (v : Value)
    (h : (env.get ident).isSome) :
    (env.assign ident v).get ident = some v := by
  induction env with
  | nil => simp [Environments.get] at h
  | cons f rest ih =>
    simp only [Environments.assign]
    split
    · rename_i hf
      simp [Environments.get, frameGet_frameInsert_self]
    · rename_i hf
      rcases hg : frameGet f ident with _ | w
      · have h' : (Environments.get rest ident).isSome := by
          simpa [Environments.get, hg] using h
        simpa [Environments.get, hg] using ih h'
      · simp [hg] at hf


lemma get_assign_ne (env : Environments) (ident k : String) (v : Value)
    (h : k ≠ ident) :
    (env.assign ident v).get k = env.get k := by
  induction env with
  | nil => simp [Environments.assign]
  | cons f rest ih =>
    simp only [Environments.assign]
    split
    · simp [Environments.get, frameGet_frameInsert_ne f ident k v h]
    · simp only [Environments.get, ih]

lemma get_assign_isSome (env : Environments) (ident k : String) (v : Value)
    (h : (env.get k).isSome) :
    ((env.assign ident v).get k).isSome := by
  by_cases hk : k = ident
  · subst hk; simp [get_assign_self env k v h]
  · simpa [get_assign_ne env ident k v hk] using h

lemma bindE_fst_bound {α β : Type} {r : Environments × Except EvaluationError α}
    {k : α → Environments → Environments × Except EvaluationError β}
    {name : String}
    (h1 : (r.1.get name).isSome)
    (h2 : ∀ v, r.2 = .ok v → (((k v r.1).1).get name).isSome) :
    (((bindE r k).1).get name).isSome := by
  rcases r with ⟨env, rr⟩
  cases rr with
  | ok v => exact h2 v rfl
  | error e => simpa [bindE] using h1

lemma bindX_fst_bound {α β : Type} {env : Environments}
    {r : Except EvaluationError α}
    {k : α → Environments → Environments × Except EvaluationError β}
    {name : String}
    (h1 : (env.get name).isSome)
    (h2 : ∀ v, r = .ok v → (((k v env).1).get name).isSome) :
    (((bindX env r k).1).get name).isSome := by
  cases r with
  | ok v => exact h2 v rfl
  | error e => simpa [bindX] using h1

/-- Expression evaluation never removes a binding: a name bound somewhere in
the stack before evaluation is still bound after it (assignments only
overwrite values). -/
lemma evaluate_expr_preserves_bound (e : ExpressionTree) (env : Environments)
    (k : String) (h : (env.get k).isSome) :
    (((evaluate_expr e env).1).get k).isSome := by
  induction e, env using evaluate_expr.induct
  all_goals simp only [evaluate_expr]
  all_goals
    repeat' (first
      | assumption
      | (exact h)
      | (apply bindE_fst_bound)
      | (apply bindX_fst_bound)
      | (intro _ _)
      | (split)
      | (simp_all [get_assign_isSome]))

/-- C7: evaluating `name = rhs` when `name` is bound in no frame yields the
`UndeclaredVariable` error with the environment unchanged and `rhs` never
evaluated (the conclusion holds for every `rhs`); when `name` is bound, `rhs`
is evaluated first and then the innermost existing binding of `name` is
overwritten (`Environments.assign`), the expression's value is the assigned
value, the new stack looks up `name` to that value, all other names are
untouched, and no frame is created or destroyed. -/
theorem claim_C7_assignment (env : Environments) (ident : String)
    (rhs : ExpressionTree) :
    (env.get ident = none →
      evaluate_expr (.assignment ident rhs) env =
        (env, .error (.undeclaredVariable ident))) ∧
    (∀ v0, env.get ident = some v0 →
      ∀ env2 v, evaluate_expr rhs env = (env2, .ok v) →
        evaluate_expr (.assignment ident rhs) env =
          (env2.assign ident v, .ok v) ∧
        (env2.assign ident v).get ident = some v ∧
        (∀ k, k ≠ ident → (env2.assign ident v).get k = env2.get k) ∧
        (env2.assign ident v).length = env2.length) := by
  constructor
  · intro hnone
    simp [evaluate_expr, hnone]
  · intro v0 hsome env2 v hrhs
    have hbound2 : (env2.get ident).isSome := by
      have := evaluate_expr_preserves_bound rhs env ident (by simp [hsome])
      rwa [hrhs] at this
    refine ⟨?_, get_assign_self env2 ident v hbound2,
      fun k hk => get_assign_ne env2 ident k v hk,
      length_assign env2 ident v⟩
    simp [evaluate_expr, hsome, hrhs, bindE]

/-- C7, witness: both branches of the assignment theorem at concrete inputs —
assigning to the never-declared `y` errors and leaves the environment alone;
assigning `true` to a declared `x` overwrites it and produces the value. -/
theorem claim_C7_witness :
    (evaluate_expr (.assignment "y" (.primary .true_)) [[]] =
      ([[]], .error (.undeclaredVariable "y")) ∧
    evaluate_expr (.assignment "x" (.primary .true_)) [[("x", Value.nil)]] =
      ([[("x", Value.boolean true)]], .ok (.boolean true))) := by
  constructor
  · exact (claim_C7_assignment [[]] "y" (.primary .true_)).1 (by decide)
  · have h := (claim_C7_assignment [[("x", Value.nil)]] "x"
      (.primary .true_)).2 Value.nil (by decide) [[("x", Value.nil)]]
      (.boolean true) rfl
    rw [h.1]
    rfl

/-- The five literal `Primary` forms, with their token, expression and value
images: used to quantify theorems over arbitrary literal operands. -/
inductive Lit where
  | str (s : String)
  | num (n : ℚ) (lexeme : String)
  | tru
  | fls
  | nil

/-- The `Primary` a literal parses to. -/
def Lit.prim : Lit → Primary
  | .str s => .string s
  | .num n _ => .number n
  | .tru => .true_
  | .fls => .false_
  | .nil => .nil

/-- The literal as an expression. -/
def Lit.expr (l : Lit) : ExpressionTree := .primary l.prim

/-- The `Value` a literal evaluates to. -/
def Lit.val : Lit → Value
  | .str s => .string s
  | .num n _ => .number n
  | .tru => .boolean true
  | .fls => .boolean false
  | .nil => .nil

lemma evaluate_expr_lit (l : Lit) (env : Environments) :
    evaluate_expr l.expr env = (env, .ok l.val) := by
  cases l <;> simp [Lit.expr, Lit.prim, Lit.val, evaluate_expr]

/-- C8: for every name `x` and literal initializers `v` (outer) and `w`
(inner), the program `var x = v; { var x = w; print x; } print x;` prints the
inner value then the outer value, and finishes with the single global frame
still binding `x` to the outer value: the inner declaration lands in the
block's fresh frame and never modifies the outer frame's binding. -/
theorem claim_C8_shadowing (x : String) (v w : Lit) :
    evaluate
      [.varDeclaration x (some v.expr),
       .block [.varDeclaration x (some w.expr),
               .print (.primary (.identifier x))],
       .print (.primary (.identifier x))]
      Environments.new []
    = (([[(x, v.val)]], [w.val.display, v.val.display]), .ok ()) := by
  simp [evaluate, evaluate_expr, evaluate_expr_lit, Environments.new,
    Environments.insert, Environments.push_block, Environments.pop_block,
    Environments.get, frameGet, frameInsert, List.find?]

/-! ## The parser (`parse.rs`)

The Rust parser consumes a `Peekable` iterator; we pass the remaining token
list explicitly and return the unconsumed suffix.  The recursion is indexed by
a fuel parameter (every call site decrements it); `outOfFuel` is an artifact
of the embedding and is never produced when the fuel exceeds the length of
the input, as every concrete computation below shows. -/

/-- The `ParseExpressionError` from `parse.rs`. -/
inductive ParseExpressionError where
  | invalidToken (t : Token)
  | missingRightParen
  | missingRightBrace
  deriving DecidableEq, Repr

/-- The process-aborting sites in `parse.rs`:
`panic!("Expected semicolon got '{token}'")`, `panic!("Expected identifier")`
and the `unreachable!()` in the outer `Token::RightBrace` arm. -/
inductive PanicReason where
  | expectedSemicolon (got : Token)
  | expectedIdentifier
  | unreachableRightBrace
  deriving DecidableEq, Repr

/-- Outcome of a parser call: a value, a propagated `Err`, a process abort, or
the embedding's fuel artifact. -/
inductive POutcome (α : Type) where
  | ok (a : α)
  | err (e : ParseExpressionError)
  | panic (p : PanicReason)
  | outOfFuel
  deriving DecidableEq, Repr

mutual
/-- The `parse_expr` from `parse.rs` (the Pratt parser): the prefix (`nud`) part,
followed by the infix loop. -/
def parse_expr : ℕ → List Token → ℕ → POutcome (ExpressionTree × List Token)
  | 0, _, _ => .outOfFuel
  | fuel + 1, tokens, min_bp =>
    match tokens with
    | [] => parse_expr_loop fuel (.primary .nil) [] min_bp
    | t :: rest =>
      match t with
      | .nil => parse_expr_loop fuel (.primary .nil) rest min_bp
      | .true_ => parse_expr_loop fuel (.primary .true_) rest min_bp
      | .false_ => parse_expr_loop fuel (.primary .false_) rest min_bp
      | .number n _ => parse_expr_loop fuel (.primary (.number n)) rest min_bp
      | .string s => parse_expr_loop fuel (.primary (.string s)) rest min_bp
      | .leftParen =>
        match parse_expr fuel rest 0 with
        | .ok (inner, rest2) =>
          match rest2 with
          | .rightParen :: rest3 =>
            parse_expr_loop fuel (.primary (.group inner)) rest3 min_bp
          | _ => .err .missingRightParen
        | .err e => .err e
        | .panic p => .panic p
        | .outOfFuel => .outOfFuel
      | .identifier ident =>
        match rest with
        | .equal :: rest2 =>
          match parse_expr fuel rest2 1 with
          | .ok (rhs, rest3) =>
            parse_expr_loop fuel (.assignment ident rhs) rest3 min_bp
          | .err e => .err e
          | .panic p => .panic p
          | .outOfFuel => .outOfFuel
        | _ => parse_expr_loop fuel (.primary (.identifier ident)) rest min_bp
      | .minus =>
        match parse_expr fuel rest 5 with
        | .ok (operand, rest2) =>
          parse_expr_loop fuel (.unary (.minus operand)) rest2 min_bp
        | .err e => .err e
        | .panic p => .panic p
        | .outOfFuel => .outOfFuel
      | .bang =>
        match parse_expr fuel rest 5 with
        | .ok (operand, rest2) =>
          parse_expr_loop fuel (.unary (.bang operand)) rest2 min_bp
        | .err e => .err e
        | .panic p => .panic p
        | .outOfFuel => .outOfFuel
      | other => .err (.invalidToken other)

/-- The `while let Some(next_token) = tokens.peek()` infix loop of
`parse_expr`: each recognized operator with binding power above `min_bp` is
consumed, its right-hand side parsed at that binding power, and the result
folded into `lhs`; anything else ends the loop with the tokens unconsumed. -/
def parse_expr_loop :
    ℕ → ExpressionTree → List Token → ℕ → POutcome (ExpressionTree × List Token)
  | 0, _, _, _ => .outOfFuel
  | fuel + 1, lhs, tokens, min_bp =>
    match tokens with
    | [] => .ok (lhs, [])
    | t :: rest =>
      match t with
      | .star =>
        if 5 > min_bp then
          match parse_expr fuel rest 5 with
          | .ok (rhs, rest2) =>
            parse_expr_loop fuel (.factor (.star lhs rhs)) rest2 min_bp
          | .err e => .err e
          | .panic p => .panic p
          | .outOfFuel => .outOfFuel
        else .ok (lhs, t :: rest)
      | .slash =>
        if 5 > min_bp then
          match parse_expr fuel rest 5 with
          | .ok (rhs, rest2) =>
            parse_expr_loop fuel (.factor (.slash lhs rhs)) rest2 min_bp
          | .err e => .err e
          | .panic p => .panic p
          | .outOfFuel => .outOfFuel
        else .ok (lhs, t :: rest)
      | .plus =>
        if 4 > min_bp then
          match parse_expr fuel rest 4 with
          | .ok (rhs, rest2) =>
            parse_expr_loop fuel (.term (.plus lhs rhs)) rest2 min_bp
          | .err e => .err e
          | .panic p => .panic p
          | .outOfFuel => .outOfFuel
        else .ok (lhs, t :: rest)
      | .minus =>
        if 4 > min_bp then
          match parse_expr fuel rest 4 with
          | .ok (rhs, rest2) =>
            parse_expr_loop fuel (.term (.minus lhs rhs)) rest2 min_bp
          | .err e => .err e
          | .panic p => .panic p
          | .outOfFuel => .outOfFuel
        else .ok (lhs, t :: rest)
      | .less =>
        if 3 > min_bp then
          match parse_expr fuel rest 3 with
          | .ok (rhs, rest2) =>
            parse_expr_loop fuel (.comparison (.less lhs rhs)) rest2 min_bp
          | .err e => .err e
          | .panic p => .panic p
          | .outOfFuel => .outOfFuel
        else .ok (lhs, t :: rest)
      | .lessEqual =>
        if 3 > min_bp then
          match parse_expr fuel rest 3 with
          | .ok (rhs, rest2) =>
            parse_expr_loop fuel (.comparison (.lessEqual lhs rhs)) rest2 min_bp
          | .err e => .err e
          | .panic p => .panic p
          | .outOfFuel => .outOfFuel
        else .ok (lhs, t :: rest)
      | .greater =>
        if 3 > min_bp then
          match parse_expr fuel rest 3 with
          | .ok (rhs, rest2) =>
            parse_expr_loop fuel (.comparison (.greater lhs rhs)) rest2 min_bp
          | .err e => .err e
          | .panic p => .panic p
          | .outOfFuel => .outOfFuel
        else .ok (lhs, t :: rest)
      | .greaterEqual =>
        if 3 > min_bp then
          match parse_expr fuel rest 3 with
          | .ok (rhs, rest2) =>
            parse_expr_loop fuel (.comparison (.greaterEqual lhs rhs)) rest2
              min_bp
          | .err e => .err e
          | .panic p => .panic p
          | .outOfFuel => .outOfFuel
        else .ok (lhs, t :: rest)
      | .equalEqual =>
        if 2 > min_bp then
          match parse_expr fuel rest 2 with
          | .ok (rhs, rest2) =>
            parse_expr_loop fuel (.equality (.equalEqual lhs rhs)) rest2 min_bp
          | .err e => .err e
          | .panic p => .panic p
          | .outOfFuel => .outOfFuel
        else .ok (lhs, t :: rest)
      | .bangEqual =>
        if 2 > min_bp then
          match parse_expr fuel rest 2 with
          | .ok (rhs, rest2) =>
            parse_expr_loop fuel (.equality (.bangEqual lhs rhs)) rest2 min_bp
          | .err e => .err e
          | .panic p => .panic p
          | .outOfFuel => .outOfFuel
        else .ok (lhs, t :: rest)
      | _ => .ok (lhs, t :: rest)
end

/-- The thrice-repeated semicolon snippet of `parse_statement`:
`if let Some(token) = tokens.next() { if token != Semicolon { panic!(...) } }`
— note it accepts end-of-stream as if the semicolon were present. -/
def check_semicolon (rest : List Token) (stmt : StatementTree) :
    POutcome (Option StatementTree × List Token) :=
  match rest with
  | [] => .ok (some stmt, [])
  | t :: rest2 =>
    if t = .semicolon then .ok (some stmt, rest2)
    else .panic (.expectedSemicolon t)

mutual
/-- The `parse_statement` from `parse.rs`: dispatch on the peeked token. -/
def parse_statement : ℕ → List Token → POutcome (Option StatementTree × List Token)
  | 0, _ => .outOfFuel
  | fuel + 1, tokens =>
    match tokens with
    | [] => .ok (none, [])
    | t :: rest =>
      match t with
      | .print =>
        match parse_expr fuel rest 0 with
        | .ok (e, rest2) => check_semicolon rest2 (.print e)
        | .err e => .err e
        | .panic p => .panic p
        | .outOfFuel => .outOfFuel
      | .var =>
        match rest with
        | .identifier ident :: rest2 =>
          match rest2 with
          | .equal :: rest3 =>
            match parse_expr fuel rest3 0 with
            | .ok (e, rest4) =>
              check_semicolon rest4 (.varDeclaration ident (some e))
            | .err e => .err e
            | .panic p => .panic p
            | .outOfFuel => .outOfFuel
          | _ => check_semicolon rest2 (.varDeclaration ident none)
        | _ => .panic .expectedIdentifier
      | .leftBrace =>
        match parse_block_loop fuel [] rest with
        | .ok (stmts, rest2) =>
          match rest2 with
          | .rightBrace :: rest3 => .ok (some (.block stmts), rest3)
          | _ => .err .missingRightBrace
        | .err e => .err e
        | .panic p => .panic p
        | .outOfFuel => .outOfFuel
      | .rightBrace => .panic .unreachableRightBrace
      | _ =>
        match parse_expr fuel tokens 0 with
        | .ok (e, rest2) => check_semicolon rest2 (.expr e)
        | .err e => .err e
        | .panic p => .panic p
        | .outOfFuel => .outOfFuel

/-- The `while let Some(statement) = parse_statement(tokens)?` loop of the
`LeftBrace` arm: collect statements, breaking when the peek after a parsed
statement is `RightBrace` (the peek happens only *after* at least one
statement was parsed). -/
def parse_block_loop :
    ℕ → List StatementTree → List Token → POutcome (List StatementTree × List Token)
  | 0, _, _ => .outOfFuel
  | fuel + 1, acc, tokens =>
    match parse_statement fuel tokens with
    | .ok (none, rest) => .ok (acc, rest)
    | .ok (some stmt, rest) =>
      if rest.head? = some Token.rightBrace then .ok (acc ++ [stmt], rest)
      else parse_block_loop fuel (acc ++ [stmt]) rest
    | .err e => .err e
    | .panic p => .panic p
    | .outOfFuel => .outOfFuel
end

/-- The `parse_statements` from `parse.rs`: loop `parse_statement` until the
token stream is exhausted, accumulating the statements. -/
def parse_statements : ℕ → List StatementTree → List Token →
    POutcome (List StatementTree)
  | 0, _, _ => .outOfFuel
  | fuel + 1, acc, tokens =>
    match parse_statement fuel tokens with
    | .ok (none, _) => .ok acc
    | .ok (some stmt, rest) => parse_statements fuel (acc ++ [stmt]) rest
    | .err e => .err e
    | .panic p => .panic p
    | .outOfFuel => .outOfFuel

example :
    parse_expr 9 [.number 1 "1", .plus, .number 2 "2", .star, .number 3 "3"] 0 =
      .ok (.term (.plus (.primary (.number 1))
        (.factor (.star (.primary (.number 2)) (.primary (.number 3))))), []) :=
  rfl

/-- The ten infix operators of the binding-power table, with their tokens,
binding powers (`parse_expr`'s per-arm `bp` constants) and tree constructors
(the per-arm folds). -/
inductive BinOp where
  | star | slash | plus | minus
  | less | lessEqual | greater | greaterEqual
  | equalEqual | bangEqual
  deriving DecidableEq, Repr

/-- The token of an infix operator. -/
def BinOp.token : BinOp → Token
  | .star => .star
  | .slash => .slash
  | .plus => .plus
  | .minus => .minus
  | .less => .less
  | .lessEqual => .lessEqual
  | .greater => .greater
  | .greaterEqual => .greaterEqual
  | .equalEqual => .equalEqual
  | .bangEqual => .bangEqual

/-- The left binding power of an infix operator (`parse_expr`'s `bp`). -/
def BinOp.bp : BinOp → ℕ
  | .star => 5
  | .slash => 5
  | .plus => 4
  | .minus => 4
  | .less => 3
  | .lessEqual => 3
  | .greater => 3
  | .greaterEqual => 3
  | .equalEqual => 2
  | .bangEqual => 2

/-- The tree node an infix operator folds its operands into. -/
def BinOp.node : BinOp → ExpressionTree → ExpressionTree → ExpressionTree
  | .star, l, r => .factor (.star l r)
  | .slash, l, r => .factor (.slash l r)
  | .plus, l, r => .term (.plus l r)
  | .minus, l, r => .term (.minus l r)
  | .less, l, r => .comparison (.less l r)
  | .lessEqual, l, r => .comparison (.lessEqual l r)
  | .greater, l, r => .comparison (.greater l r)
  | .greaterEqual, l, r => .comparison (.greaterEqual l r)
  | .equalEqual, l, r => .equality (.equalEqual l r)
  | .bangEqual, l, r => .equality (.bangEqual l r)

/-- Whether a token is one of the ten infix operators the Pratt loop
recognizes. -/
def isBinOp : Token → Bool
  | .star | .slash | .plus | .minus
  | .less | .lessEqual | .greater | .greaterEqual
  | .equalEqual | .bangEqual => true
  | _ => false

lemma BinOp.bp_pos (o : BinOp) : 0 < o.bp := by cases o <;> decide

/-- The token of a literal. -/
def Lit.token : Lit → Token
  | .str s => .string s
  | .num n lx => .number n lx
  | .tru => .true_
  | .fls => .false_
  | .nil => .nil

/-- The prefix step of `parse_expr` on a literal token hands
`Primary` of the literal to the infix loop. -/
lemma parse_expr_lit_cons (l : Lit) (rest : List Token) (min_bp fuel : ℕ) :
    parse_expr (fuel + 1) (l.token :: rest) min_bp =
      parse_expr_loop fuel (.primary l.prim) rest min_bp := by
  cases l with
  | str s => rfl
  | num n lx => rfl
  | tru => rfl
  | fls => rfl
  | nil => rfl

/-- One iteration of the infix loop at an operator token: consume it and
parse the right-hand side at its binding power when `bp > min_bp`, else stop
with the operator unconsumed. -/
lemma parse_expr_loop_op (o : BinOp) (lhs : ExpressionTree)
    (rest : List Token) (min_bp fuel : ℕ) :
    parse_expr_loop (fuel + 1) lhs (o.token :: rest) min_bp =
      if o.bp > min_bp then
        match parse_expr fuel rest o.bp with
        | .ok (rhs, rest2) => parse_expr_loop fuel (o.node lhs rhs) rest2 min_bp
        | .err e => .err e
        | .panic p => .panic p
        | .outOfFuel => .outOfFuel
      else .ok (lhs, o.token :: rest) := by
  cases o <;> rfl

lemma parse_expr_loop_nil (lhs : ExpressionTree) (min_bp fuel : ℕ) :
    parse_expr_loop (fuel + 1) lhs [] min_bp = .ok (lhs, []) := rfl

set_option maxHeartbeats 2000000 in
/-- C5: for every `a OP1 b OP2 c` over literal operands, `parse_expr` at
`min_bp = 0` groups to the right exactly when `bp(OP1) < bp(OP2)` and to the
left whenever `bp(OP1) >= bp(OP2)` — in particular equal-precedence chains are
left-associative. -/
theorem claim_C5_precedence (o1 o2 : BinOp) (a b c : Lit) :
    parse_expr 9 [a.token, o1.token, b.token, o2.token, c.token] 0 =
      .ok ((if o1.bp < o2.bp
            then o1.node (.primary a.prim) (o2.node (.primary b.prim) (.primary c.prim))
            else o2.node (o1.node (.primary a.prim) (.primary b.prim)) (.primary c.prim)),
           []) := by
  cases o1 <;> cases o2 <;> cases a <;> cases b <;> cases c <;> rfl

/-- C3, counterexample: a print statement whose expression is *not* followed
by a `Semicolon` does not produce an `Err`: when the stream simply ends after
the expression the parse *succeeds* (the `if let Some(token) = tokens.next()`
guard is skipped at end of stream), and when another token follows the parser
*panics* (process abort), never returning a parse error. -/
theorem claim_C3_counterexample :
    parse_statement 9 [.print, .true_] = .ok (some (.print (.primary .true_)), []) ∧
    parse_statement 9 [.print, .true_, .comma] = .panic (.expectedSemicolon .comma) :=
  ⟨rfl, rfl⟩

/-- C3 (amended): for every token `t` that neither continues the expression
(not an infix operator) nor is a `Semicolon`, a print / var / expression
statement whose expression is followed by `t` makes `parse_statement` panic
with `Expected semicolon` (aborting the process, not returning `Err`); when
the stream ends right after the expression, the statement parse *succeeds*
without the semicolon; and `var` not followed by an identifier panics with
`Expected identifier`. -/
theorem claim_C3_amended (t : Token) (h1 : isBinOp t = false)
    (h2 : t ≠ .semicolon) (h3 : ∀ s, t ≠ .identifier s) :
    parse_statement 9 [.print, .true_, t] = .panic (.expectedSemicolon t) ∧
    parse_statement 9 [.true_, t] = .panic (.expectedSemicolon t) ∧
    parse_statement 9 [.var, .identifier "x", .equal, .true_, t] =
      .panic (.expectedSemicolon t) ∧
    parse_statement 9 [.print, .true_] = .ok (some (.print (.primary .true_)), []) ∧
    parse_statement 9 [.true_] = .ok (some (.expr (.primary .true_)), []) ∧
    parse_statement 9 [.var, .identifier "x", .equal, .true_] =
      .ok (some (.varDeclaration "x" (some (.primary .true_))), []) ∧
    parse_statement 9 [.var, t] = .panic .expectedIdentifier ∧
    parse_statement 9 [.var] = .panic .expectedIdentifier := by
  cases t
  all_goals first
    | (exact absurd rfl (h3 _))
    | (exact absurd rfl h2)
    | (exact ⟨rfl, rfl, rfl, rfl, rfl, rfl, rfl, rfl⟩)
    | (simp [isBinOp] at h1)

/-- C3, witness for the amended theorem at `t = Comma`. -/
theorem claim_C3_witness :
    (isBinOp .comma = false ∧ Token.comma ≠ .semicolon ∧
      (∀ s, Token.comma ≠ .identifier s)) ∧
    (parse_statement 9 [.print, .true_, .comma] =
      .panic (.expectedSemicolon .comma) ∧
    parse_statement 9 [.true_, .comma] = .panic (.expectedSemicolon .comma) ∧
    parse_statement 9 [.var, .identifier "x", .equal, .true_, .comma] =
      .panic (.expectedSemicolon .comma) ∧
    parse_statement 9 [.print, .true_] = .ok (some (.print (.primary .true_)), []) ∧
    parse_statement 9 [.true_] = .ok (some (.expr (.primary .true_)), []) ∧
    parse_statement 9 [.var, .identifier "x", .equal, .true_] =
      .ok (some (.varDeclaration "x" (some (.primary .true_))), []) ∧
    parse_statement 9 [.var, .comma] = .panic .expectedIdentifier ∧
    parse_statement 9 [.var] = .panic .expectedIdentifier) :=
  ⟨⟨rfl, by decide, fun s => by simp⟩,
   claim_C3_amended .comma rfl (by decide) (fun s => by simp)⟩

/-- C4: on the empty block `\x7b\x7d` the parser does *not* return
`Block([])`: the block loop calls `parse_statement` before ever peeking for
`RightBrace`, that call peeks the `RightBrace` and hits the
`unreachable!()` arm — a panic, violating the code's own assertion.  The same
`unreachable!()` fires for a `RightBrace` at the outermost level (which the
claim calls a parse error).  A non-empty block parses fine, confirming the
peek-after-a-statement structure. -/
theorem claim_C4_empty_block_panics :
    parse_statement 9 [.leftBrace, .rightBrace] = .panic .unreachableRightBrace ∧
    parse_statement 9 [.rightBrace] = .panic .unreachableRightBrace ∧
    parse_statement 9 [.leftBrace, .true_, .semicolon, .rightBrace] =
      .ok (some (.block [.expr (.primary .true_)]), []) :=
  ⟨rfl, rfl, rfl⟩

/-! ## The lexer (`lex.rs`)

The streaming `Lexer` pulls characters from a `Peekable<CharIndices>` and
yields `Result<Token, LexingError>` items, tracking a 1-based line counter.
We embed the whole stream at once: `lexAll chars line` is the list of items
the iterator produces from the remaining characters at the given line count
(the Rust iterator is resumed after each error, exactly as the loop below
recurses after yielding one). -/

/-- The `LexingErrorKind` from `lex.rs`. -/
inductive LexingErrorKind where
  | unterminatedString
  | unexpectedCharacter (c : Char)
  deriving DecidableEq, Repr

/-- The `LexingError` from `lex.rs`: an error kind tagged with the current line
count. -/
structure LexingError where
  kind : LexingErrorKind
  line_count : ℕ
  deriving DecidableEq, Repr

/-- The `self.chars.find(|(_, c)| c == '"')` step of the string arm: consume
characters up to and including the next `"`, returning the content before it
and the rest after it; `none` when no closing quote exists. -/
def scanString : List Char → Option (List Char × List Char)
  | [] => none
  | c :: rest =>
    if c = '"' then some ([], rest)
    else
      match scanString rest with
      | some (body, rest2) => some (c :: body, rest2)
      | none => none

/-- The number-scanning loop of `Lexer::next` with its `first_dot` flag: a
second `.` or any non-digit terminates the scan.  Returns the consumed
characters (after the initial digit) and the rest. -/
def scanNumber : Bool → List Char → List Char × List Char
  | _, [] => ([], [])
  | firstDot, c :: rest =>
    if c = '.' then
      if firstDot then ([], c :: rest)
      else
        let (tk, rs) := scanNumber true rest
        ('.' :: tk, rs)
    else if c.isDigit then
      let (tk, rs) := scanNumber firstDot rest
      (c :: tk, rs)
    else ([], c :: rest)

/-- Rust's `matches!(c, 'a'..='z' | 'A'..='Z' | '_' | '0'..='9')`. -/
def isIdentContinue (c : Char) : Bool := c.isAlpha || c = '_' || c.isDigit

/-- The identifier start range `'a'..='z' | 'A'..='Z' | '_'`. -/
def isIdentStart (c : Char) : Bool := c.isAlpha || c = '_'

/-- The keyword table of `Lexer::next`. -/
def keywordOrIdent : String → Token
  | "and" => .and
  | "class" => .class_
  | "else" => .else_
  | "false" => .false_
  | "for" => .for_
  | "fun" => .fun_
  | "if" => .if_
  | "nil" => .nil
  | "or" => .or
  | "return" => .return_
  | "super" => .super_
  | "this" => .this
  | "true" => .true_
  | "var" => .var
  | "while" => .while_
  | "print" => .print
  | ident => .identifier ident

/-- Numeric value of a run of decimal digits. -/
def digitsVal (ds : List Char) : ℕ :=
  ds.foldl (fun a c => a * 10 + (c.toNat - Char.toNat '0')) 0

/-- The `number_str.parse::<f64>().unwrap()` on a lexeme `digits[.digits]`,
modelled exactly: the integer part plus the fraction digits scaled down. -/
def parseDecimal (cs : List Char) : ℚ :=
  let ip := cs.takeWhile (fun c => c ≠ '.')
  match cs.dropWhile (fun c => c ≠ '.') with
  | _ :: frac => (digitsVal ip : ℚ) + (digitsVal frac : ℚ) / 10 ^ frac.length
  | [] => (digitsVal ip : ℚ)

lemma scanString_rest_length :
    ∀ cs body rest2, scanString cs = some (body, rest2) →
      rest2.length < cs.length := by
  intro cs
  induction cs with
  | nil => intro body rest2 h; simp [scanString] at h
  | cons c rest ih =>
    intro body rest2 h
    by_cases hc : c = '"'
    · subst hc
      simp [scanString] at h
      have := h.2
      subst this
      simp
    · simp only [scanString, if_neg hc] at h
      rcases hrec : scanString rest with _ | ⟨b2, r2⟩ <;> simp only [hrec] at h
      · exact absurd h (by simp)
      · simp only [Option.some.injEq, Prod.mk.injEq] at h
        have := ih b2 r2 hrec
        have hr : r2 = rest2 := h.2
        subst hr
        simp only [List.length_cons]
        omega

lemma scanNumber_rest_length (fd : Bool) (cs : List Char) :
    (scanNumber fd cs).2.length ≤ cs.length := by
  induction cs generalizing fd with
  | nil => simp [scanNumber]
  | cons c rest ih =>
    simp only [scanNumber]
    split
    · split
      · simp
      · have := ih true
        simp only []
        calc (scanNumber true rest).2.length ≤ rest.length := ih true
          _ ≤ (c :: rest).length := by simp
    · split
      · calc (scanNumber fd rest).2.length ≤ rest.length := ih fd
          _ ≤ (c :: rest).length := by simp
      · simp

lemma length_dropWhile_le (p : Char → Bool) (l : List Char) :
    (l.dropWhile p).length ≤ l.length := by
  induction l with
  | nil => simp [List.dropWhile]
  | cons c rest ih =>
    simp only [List.dropWhile]
    split
    · calc (rest.dropWhile p).length ≤ rest.length := ih
        _ ≤ (c :: rest).length := by simp
    · simp

/-- The `Lexer::next`, iterated to the end of input: the full token/error stream
from the remaining characters at the given line count. -/
def lexAll : (cs : List Char) → ℕ → List (Except LexingError Token)
  | [], _ => []
  | c :: rest, line =>
    match c with
    | '(' => .ok .leftParen :: lexAll rest line
    | ')' => .ok .rightParen :: lexAll rest line
    | '\x7b' => .ok .leftBrace :: lexAll rest line
    | '\x7d' => .ok .rightBrace :: lexAll rest line
    | ',' => .ok .comma :: lexAll rest line
    | '.' => .ok .dot :: lexAll rest line
    | '-' => .ok .minus :: lexAll rest line
    | '+' => .ok .plus :: lexAll rest line
    | ';' => .ok .semicolon :: lexAll rest line
    | '*' => .ok .star :: lexAll rest line
    | '=' =>
      match rest with
      | '=' :: rest2 => .ok .equalEqual :: lexAll rest2 line
      | r2 => .ok .equal :: lexAll r2 line
    | '!' =>
      match rest with
      | '=' :: rest2 => .ok .bangEqual :: lexAll rest2 line
      | r2 => .ok .bang :: lexAll r2 line
    | '<' =>
      match rest with
      | '=' :: rest2 => .ok .lessEqual :: lexAll rest2 line
      | r2 => .ok .less :: lexAll r2 line
    | '>' =>
      match rest with
      | '=' :: rest2 => .ok .greaterEqual :: lexAll rest2 line
      | r2 => .ok .greater :: lexAll r2 line
    | '/' =>
      match rest with
      | '/' :: rest2 => lexAll (rest2.dropWhile (fun ch => ch ≠ '\n')) line
      | r2 => .ok .slash :: lexAll r2 line
    | ' ' => lexAll rest line
    | '\t' => lexAll rest line
    | '\n' => lexAll rest (line + 1)
    | '"' =>
      match hs : scanString rest with
      | some (body, rest2) =>
        .ok (.string (String.mk body)) :: lexAll rest2 line
      | none => [.error ⟨.unterminatedString, line⟩]
    | other =>
      if other.isDigit then
        let sn := scanNumber false rest
        let lexeme := other :: sn.1
        .ok (.number (parseDecimal lexeme) (String.mk lexeme)) ::
          lexAll sn.2 line
      else if isIdentStart other then
        let lexeme := other :: rest.takeWhile isIdentContinue
        .ok (keywordOrIdent (String.mk lexeme)) ::
          lexAll (rest.dropWhile isIdentContinue) line
      else
        .error ⟨.unexpectedCharacter other, line⟩ :: lexAll rest line
  termination_by cs _ => cs.length
  decreasing_by
    all_goals simp_wf
    all_goals first
      | omega
      | (exact Nat.lt_succ_of_lt (scanString_rest_length _ _ _ hs))
      | (exact Nat.lt_succ_of_le (scanNumber_rest_length _ _))
      | (exact lt_of_le_of_lt (length_dropWhile_le _ _) (by omega))

/-- C9: tokenizing `1.2.3` yields exactly
`Number(1.2, "1.2")`, `Dot`, `Number(3.0, "3")` with no lexing error: the
number scan consumes at most one dot, the second dot ends the number token
and is then emitted as a `DOT`. -/
theorem claim_C9_second_dot_ends_number :
    lexAll "1.2.3".toList 1 =
      [.ok (.number (6/5) "1.2"), .ok .dot, .ok (.number 3 "3")] := by
  simp [lexAll, scanNumber, parseDecimal, digitsVal, String.toList]
  norm_num

lemma scanString_of_not_mem :
    ∀ body rest, '"' ∉ body →
      scanString (body ++ '"' :: rest) = some (body, rest) := by
  intro body
  induction body with
  | nil => intro rest _; simp [scanString]
  | cons c bs ih =>
    intro rest h
    have hc : c ≠ '"' := fun hh => h (by simp [hh])
    have hbs : '"' ∉ bs := fun hh => h (by simp [hh])
    simp only [List.cons_append, scanString, if_neg hc, List.append_eq,
      ih rest hbs]

lemma lexAll_replicate_newline (k : ℕ) (cs : List Char) (line : ℕ) :
    lexAll (List.replicate k '\n' ++ cs) line = lexAll cs (line + k) := by
  induction k generalizing line with
  | zero => simp
  | succ k ih =>
    have : List.replicate (k + 1) '\n' ++ cs =
        '\n' :: (List.replicate k '\n' ++ cs) := by
      simp [List.replicate_succ]
    rw [this]
    rw [show lexAll ('\n' :: (List.replicate k '\n' ++ cs)) line =
        lexAll (List.replicate k '\n' ++ cs) (line + 1) from by
      simp [lexAll]]
    rw [ih]
    ring_nf

/-- C10: a terminated string literal containing newlines becomes one `String`
token whose payload keeps the newlines, but the line counter is not advanced
for them (`chars.find` skips them without touching `line_count`): a lexing
error right after the literal is tagged with `1 + k` where `k` counts only
the newlines *outside* the literal, not the true source line. -/
theorem claim_C10_newlines_in_string (body : List Char) (k : ℕ)
    (hq : '"' ∉ body) (hn : '\n' ∈ body) :
    lexAll (List.replicate k '\n' ++ '"' :: (body ++ '"' :: ['@'])) 1 =
      [.ok (.string (String.mk body)),
       .error ⟨.unexpectedCharacter '@', 1 + k⟩] := by
  rw [lexAll_replicate_newline]
  have hscan := scanString_of_not_mem body ['@'] hq
  have hat : lexAll ['@'] (1 + k) =
      [.error ⟨.unexpectedCharacter '@', 1 + k⟩] := by
    simp [lexAll, isIdentStart]
  simp only [lexAll]
  split
  · rename_i b1 r2 hs
    rw [hscan] at hs
    simp only [Option.some.injEq, Prod.mk.injEq] at hs
    rw [← hs.1, ← hs.2, hat]
  · rename_i hs
    rw [hscan] at hs
    exact absurd hs (by simp)

/-- C10, witness at `body = ['a', newline, 'b']` and one newline before the
literal: the error is tagged line 2 although the literal spans two lines. -/
theorem claim_C10_witness :
    ('"' ∉ ['a', '\n', 'b'] ∧ '\n' ∈ ['a', '\n', 'b']) ∧
    lexAll (List.replicate 1 '\n' ++ '"' :: (['a', '\n', 'b'] ++ '"' :: ['@'])) 1 =
      [.ok (.string (String.mk ['a', '\n', 'b'])),
       .error ⟨.unexpectedCharacter '@', 1 + 1⟩] :=
  ⟨⟨by decide, by decide⟩,
   claim_C10_newlines_in_string ['a', '\n', 'b'] 1 (by decide) (by decide)⟩

/-! ## The canonical expression dumper (`impl fmt::Display` in `parse.rs`)
and the re-parse pipeline -/

mutual
/-- The `Display` for `ExpressionTree`.  The result is `Option String` because
`Primary::Identifier`'s arm is `todo!()` — a panic, modelled as `none` and
propagated. -/
def displayExpr : ExpressionTree → Option String
  | .primary p => displayPrimary p
  | .unary u => displayUnary u
  | .factor f => displayFactor f
  | .term t => displayTerm t
  | .comparison c => displayComparison c
  | .equality q => displayEquality q
  | .assignment ident rhs =>
    (displayExpr rhs).map (fun s => ident ++ " = " ++ s)

/-- The `Display` for `Primary`: note strings print *without* quotes, numbers
with the `f64` `Debug` form, and identifiers hit `todo!()`. -/
def displayPrimary : Primary → Option String
  | .string s => some s
  | .number n => some (debugF64 n)
  | .true_ => some "true"
  | .false_ => some "false"
  | .nil => some "nil"
  | .group e => (displayExpr e).map (fun s => "(group " ++ s ++ ")")
  | .identifier _ => none

/-- The `Display` for `Unary`. -/
def displayUnary : Unary → Option String
  | .bang e => (displayExpr e).map (fun s => "(! " ++ s ++ ")")
  | .minus e => (displayExpr e).map (fun s => "(- " ++ s ++ ")")

/-- The `Display` for `Factor`. -/
def displayFactor : Factor → Option String
  | .slash l r =>
    (displayExpr l).bind fun sl =>
      (displayExpr r).map fun sr => "(/ " ++ sl ++ " " ++ sr ++ ")"
  | .star l r =>
    (displayExpr l).bind fun sl =>
      (displayExpr r).map fun sr => "(* " ++ sl ++ " " ++ sr ++ ")"

/-- The `Display` for `Term`. -/
def displayTerm : Term → Option String
  | .minus l r =>
    (displayExpr l).bind fun sl =>
      (displayExpr r).map fun sr => "(- " ++ sl ++ " " ++ sr ++ ")"
  | .plus l r =>
    (displayExpr l).bind fun sl =>
      (displayExpr r).map fun sr => "(+ " ++ sl ++ " " ++ sr ++ ")"

/-- The `Display` for `Comparison`. -/
def displayComparison : Comparison → Option String
  | .less l r =>
    (displayExpr l).bind fun sl =>
      (displayExpr r).map fun sr => "(< " ++ sl ++ " " ++ sr ++ ")"
  | .lessEqual l r =>
    (displayExpr l).bind fun sl =>
      (displayExpr r).map fun sr => "(<= " ++ sl ++ " " ++ sr ++ ")"
  | .greater l r =>
    (displayExpr l).bind fun sl =>
      (displayExpr r).map fun sr => "(> " ++ sl ++ " " ++ sr ++ ")"
  | .greaterEqual l r =>
    (displayExpr l).bind fun sl =>
      (displayExpr r).map fun sr => "(>= " ++ sl ++ " " ++ sr ++ ")"

/-- The `Display` for `Equality`. -/
def displayEquality : Equality → Option String
  | .equalEqual l r =>
    (displayExpr l).bind fun sl =>
      (displayExpr r).map fun sr => "(== " ++ sl ++ " " ++ sr ++ ")"
  | .bangEqual l r =>
    (displayExpr l).bind fun sl =>
      (displayExpr r).map fun sr => "(!= " ++ sl ++ " " ++ sr ++ ")"
end

/-- Collect the tokens of a lex run, `none` when any lexing error occurred
(the `parse` driver mode aborts on lex errors). -/
def collectTokens : List (Except LexingError Token) → Option (List Token)
  | [] => some []
  | .ok t :: rest => (collectTokens rest).map (t :: ·)
  | .error _ :: _ => none

/-- Re-parse a rendered expression dump: tokenize it and run the Pratt parser
at `min_bp = 0` (with ample fuel for the token count). -/
def reparse (s : String) : Option (POutcome (ExpressionTree × List Token)) :=
  (collectTokens (lexAll s.toList 1)).map
    (fun ts => parse_expr (ts.length + 1) ts 0)

/-- C6, counterexample: the well-formed expression `1 + 2` parses to
`Plus(1, 2)`, which dumps to the S-expression `(+ 1.0 2.0)` — but re-parsing
that text is an `InvalidToken(Plus)` error, not the original tree: the Pratt
parser has no prefix rule for `+`, so the canonical dump is not re-parseable
at all for compound expressions. -/
theorem claim_C6_counterexample :
    parse_expr 4 [.number 1 "1", .plus, .number 2 "2"] 0 =
      .ok (.term (.plus (.primary (.number 1)) (.primary (.number 2))), []) ∧
    displayExpr (.term (.plus (.primary (.number 1)) (.primary (.number 2)))) =
      some "(+ 1.0 2.0)" ∧
    reparse "(+ 1.0 2.0)" = some (.err (.invalidToken .plus)) := by
  refine ⟨rfl, ?_, ?_⟩
  · have h1 : debugF64 1 = "1.0" := by decide
    have h2 : debugF64 2 = "2.0" := by decide
    simp [displayExpr, displayTerm, displayPrimary, h1, h2]
  · simp [reparse, lexAll, collectTokens, scanNumber, parseDecimal,
      digitsVal, String.toList]
    rfl

/-- C6 (amended): re-parsing the canonical dump yields a structurally equal
tree for the atomic literal expressions — `true`, `false`, `nil`, and number
literals such as `1.0`, whose debug rendering re-lexes to the same value —
and for assignments of such literals (`x = true` dumps to `x = true`, which
re-parses to the same assignment tree).  The round-trip is not general,
though: a binary-operator dump such as `(+ 1.0 2.0)` re-parses as
`InvalidToken(Plus)` (the dump is prefix-form, the parser infix-only); the
group dump `(group true)` re-parses as `MissingRightParen` (the word `group`
becomes an identifier); the unary dump `(! true)` re-parses *successfully*
but to a different tree, wrapped in an extra `Group`; a string literal dumps
without its quotes and re-parses as an identifier, not a string; and dumping
any expression containing an identifier panics (`todo!()`), producing no
text at all. -/
theorem claim_C6_amended :
    (displayExpr (.primary .true_) = some "true" ∧
      reparse "true" = some (.ok (.primary .true_, []))) ∧
    (displayExpr (.primary .false_) = some "false" ∧
      reparse "false" = some (.ok (.primary .false_, []))) ∧
    (displayExpr (.primary .nil) = some "nil" ∧
      reparse "nil" = some (.ok (.primary .nil, []))) ∧
    (displayExpr (.primary (.number 1)) = some "1.0" ∧
      reparse "1.0" = some (.ok (.primary (.number 1), []))) ∧
    (displayExpr (.assignment "x" (.primary .true_)) = some "x = true" ∧
      reparse "x = true" = some (.ok (.assignment "x" (.primary .true_), []))) ∧
    reparse "(+ 1.0 2.0)" = some (.err (.invalidToken .plus)) ∧
    (displayExpr (.primary (.group (.primary .true_))) = some "(group true)" ∧
      reparse "(group true)" = some (.err .missingRightParen)) ∧
    (displayExpr (.unary (.bang (.primary .true_))) = some "(! true)" ∧
      reparse "(! true)" =
        some (.ok (.primary (.group (.unary (.bang (.primary .true_)))), [])) ∧
      (ExpressionTree.primary (.group (.unary (.bang (.primary .true_)))) ≠
        .unary (.bang (.primary .true_)))) ∧
    (displayExpr (.primary (.string "abc")) = some "abc" ∧
      reparse "abc" = some (.ok (.primary (.identifier "abc"), []))) ∧
    displayExpr (.primary (.identifier "x")) = none := by
  refine ⟨⟨?_, ?_⟩, ⟨?_, ?_⟩, ⟨?_, ?_⟩, ⟨?_, ?_⟩, ⟨?_, ?_⟩, ?_, ⟨?_, ?_⟩,
    ⟨?_, ?_, fun h => ExpressionTree.noConfusion h⟩, ⟨?_, ?_⟩, ?_⟩
  all_goals
    first
      | ((simp [displayExpr, displayPrimary, displayUnary]) <;> decide)
      | ((simp [reparse, lexAll, collectTokens, scanNumber, parseDecimal,
          digitsVal, isIdentStart, isIdentContinue, keywordOrIdent,
          String.toList]) <;> rfl)

end Lox
